import Mathlib

/-!
Verification development for the MDBX cursor wrapper
(`crates/storage/db/src/implementation/mdbx/cursor.rs`).

The cursor layer under review is translated directly from the source.  The
pieces it leans on that live elsewhere in the repository (the `Error` enum,
the `tables::utils` decoders, and the native libmdbx engine itself) are
modelled from the specification, as marked in the doc comments below.
Encoded keys, subkeys and values are modelled as natural numbers ordered the
way the engine orders encoded bytes.
-/

namespace RethDb

/-- Modelled from the spec: the `Error` enum of the storage layer is defined
outside the sources under review; its variants follow the spec's error
taxonomy (section 7): `Read`, `Write`, `Delete` wrap native codes, `Decode`
marks malformed stored bytes, `InvalidRange` marks a bad range-walker
construction. -/
inductive Error where
  | Read (code : Int)
  | Write (code : Int)
  | Delete (code : Int)
  | Decode
  | InvalidRange
deriving DecidableEq

/-- Modelled from the spec: the native engine reports "no matching entry" with
an opaque negative code (`MDBX_NOTFOUND`). -/
def mdbxNotFoundCode : Int := -30798

/-- Modelled from the spec: the native code for "key already exists" reported
by a no-overwrite insertion. -/
def mdbxKeyExistCode : Int := -30799

/-- Modelled from the spec: the native code reported when an append's ordering
assertion is violated (`MDBX_EKEYMISMATCH`). -/
def mdbxKeyMismatchCode : Int := -30418

/-- Modelled from the spec (section 6): native engine state for a plain sorted
table.  `entries` holds encoded `(key, value)` pairs, kept strictly ascending
by encoded key; the engine crate is not among the sources under review. -/
structure MdbxTable where
  entries : List (Nat × Nat)
deriving DecidableEq

/-- Modelled from the spec: a native cursor is a table handle plus an optional
current position (an index into the sorted entry list). -/
structure MdbxCursor where
  table : MdbxTable
  pos : Option Nat
deriving DecidableEq

/-- The engine's sortedness invariant: entries strictly ascending by key. -/
def sortedByKey (l : List (Nat × Nat)) : Prop :=
  List.Pairwise (fun a b => a.1 < b.1) l

instance (l : List (Nat × Nat)) : Decidable (sortedByKey l) :=
  inferInstanceAs (Decidable (List.Pairwise _ l))

/-- Modelled from the spec: native `first` positions at the smallest key. -/
def MdbxCursor.engineFirst (cur : MdbxCursor) :
    Except Int (Option (Nat × Nat)) × MdbxCursor :=
  match cur.table.entries.head? with
  | none => (Except.ok none, { cur with pos := none })
  | some e => (Except.ok (some e), { cur with pos := some 0 })

/-- Modelled from the spec: native `last` positions at the largest key. -/
def MdbxCursor.engineLast (cur : MdbxCursor) :
    Except Int (Option (Nat × Nat)) × MdbxCursor :=
  match cur.table.entries.getLast? with
  | none => (Except.ok none, { cur with pos := none })
  | some e => (Except.ok (some e), { cur with pos := some (cur.table.entries.length - 1) })

/-- Modelled from the spec: native `next` steps one entry forward; on an
unpositioned cursor it behaves as `first`. -/
def MdbxCursor.engineNext (cur : MdbxCursor) :
    Except Int (Option (Nat × Nat)) × MdbxCursor :=
  match cur.pos with
  | none => cur.engineFirst
  | some i =>
    match cur.table.entries[i + 1]? with
    | none => (Except.ok none, cur)
    | some e => (Except.ok (some e), { cur with pos := some (i + 1) })

/-- Modelled from the spec: native `prev` steps one entry back; on an
unpositioned cursor it behaves as `last`. -/
def MdbxCursor.enginePrev (cur : MdbxCursor) :
    Except Int (Option (Nat × Nat)) × MdbxCursor :=
  match cur.pos with
  | none => cur.engineLast
  | some i =>
    match i with
    | 0 => (Except.ok none, cur)
    | j + 1 =>
      match cur.table.entries[j]? with
      | none => (Except.ok none, cur)
      | some e => (Except.ok (some e), { cur with pos := some j })

/-- Modelled from the spec: native `get_current` reads the entry at the
current position without moving. -/
def MdbxCursor.engineGetCurrent (cur : MdbxCursor) :
    Except Int (Option (Nat × Nat)) × MdbxCursor :=
  match cur.pos with
  | none => (Except.ok none, cur)
  | some i => (Except.ok cur.table.entries[i]?, cur)

/-- Modelled from the spec: native `set_key` positions exactly at the given
encoded key, reporting absence as an empty result. -/
def MdbxCursor.engineSetKey (cur : MdbxCursor) (k : Nat) :
    Except Int (Option (Nat × Nat)) × MdbxCursor :=
  (Except.ok (cur.table.entries.find? (fun e => e.1 = k)),
   { cur with pos := cur.table.entries.findIdx? (fun e => e.1 = k) })

/-- Modelled from the spec: native `set_range` positions at the first entry
whose encoded key is at least the given key. -/
def MdbxCursor.engineSetRange (cur : MdbxCursor) (k : Nat) :
    Except Int (Option (Nat × Nat)) × MdbxCursor :=
  (Except.ok (cur.table.entries.find? (fun e => k ≤ e.1)),
   { cur with pos := cur.table.entries.findIdx? (fun e => k ≤ e.1) })

/-- The write flags the plain-table write protocol passes to the native
`put`, as used in the source: default upsert, no-overwrite insert, and the
ordering-asserting append. -/
inductive WriteFlags where
  | UPSERT
  | NO_OVERWRITE
  | APPEND
deriving DecidableEq

/-- Sorted insert-or-replace into the engine's entry list. -/
def putSorted : List (Nat × Nat) → Nat → Nat → List (Nat × Nat)
  | [], k, v => [(k, v)]
  | e :: rest, k, v =>
    if k < e.1 then (k, v) :: e :: rest
    else if k = e.1 then (k, v) :: rest
    else e :: putSorted rest k v

/-- Modelled from the spec (section 4.2): native `put`.  `UPSERT` always
stores; `NO_OVERWRITE` fails with the key-exists code when the key is already
present; `APPEND` fails with the key-mismatch code unless the key is strictly
greater than the table's current last (maximum) key. -/
def MdbxCursor.enginePut (cur : MdbxCursor) (k v : Nat) (f : WriteFlags) :
    Except Int Unit × MdbxCursor :=
  match f with
  | WriteFlags.UPSERT =>
    (Except.ok (), { cur with table := ⟨putSorted cur.table.entries k v⟩ })
  | WriteFlags.NO_OVERWRITE =>
    if cur.table.entries.any (fun e => e.1 = k) then
      (Except.error mdbxKeyExistCode, cur)
    else
      (Except.ok (), { cur with table := ⟨putSorted cur.table.entries k v⟩ })
  | WriteFlags.APPEND =>
    match cur.table.entries.getLast? with
    | some e =>
      if k ≤ e.1 then (Except.error mdbxKeyMismatchCode, cur)
      else (Except.ok (), { cur with table := ⟨cur.table.entries ++ [(k, v)]⟩ })
    | none => (Except.ok (), { cur with table := ⟨[(k, v)]⟩ })

/-- The codec contract for a table: encode/decode of keys, compress/decompress
of values, with encoded forms modelled as naturals ordered like the encoded
bytes. -/
structure Codec (κ ν : Type) where
  encodeKey : κ → Nat
  decodeKey : Nat → Option κ
  compressValue : ν → Nat
  decompressValue : Nat → Option ν

/-- Modelled from the spec: the `decoder` helper of `tables::utils` (outside
the sources under review) decodes an encoded pair, reporting malformed bytes
as the `Decode` error. -/
def Codec.decoder {κ ν : Type} (c : Codec κ ν) (kv : Nat × Nat) :
    Except Error (κ × ν) :=
  match c.decodeKey kv.1, c.decompressValue kv.2 with
  | some k, some v => Except.ok (k, v)
  | _, _ => Except.error Error.Decode

/-- Modelled from the spec: the `decode_one` helper of `tables::utils`
decodes a value alone, reporting malformed bytes as the `Decode` error. -/
def Codec.decodeOne {κ ν : Type} (c : Codec κ ν) (v : Nat) : Except Error ν :=
  match c.decompressValue v with
  | some w => Except.ok w
  | none => Except.error Error.Decode

/-- Translation of the `decode!` macro in `cursor.rs`: turn a native result
into the typed result — native errors become `Error.Read`, the optional raw
pair is decoded and transposed. -/
def decodeResult {κ ν : Type} (d : Nat × Nat → Except Error (κ × ν))
    (v : Except Int (Option (Nat × Nat))) : Except Error (Option (κ × ν)) :=
  match v with
  | Except.error e => Except.error (Error.Read e)
  | Except.ok none => Except.ok none
  | Except.ok (some kv) =>
    match d kv with
    | Except.error e => Except.error e
    | Except.ok p => Except.ok (some p)

variable {κ ν σ : Type}

/-- `DbCursorRO::first` from the source: `decode!(self.inner.first())`. -/
def Cursor.first (c : Codec κ ν) (cur : MdbxCursor) :
    Except Error (Option (κ × ν)) × MdbxCursor :=
  let r := cur.engineFirst
  (decodeResult c.decoder r.1, r.2)

/-- `DbCursorRO::seek_exact` from the source:
`decode!(self.inner.set_key(key.encode()))`. -/
def Cursor.seek_exact (c : Codec κ ν) (cur : MdbxCursor) (key : κ) :
    Except Error (Option (κ × ν)) × MdbxCursor :=
  let r := cur.engineSetKey (c.encodeKey key)
  (decodeResult c.decoder r.1, r.2)

/-- `DbCursorRO::seek` from the source:
`decode!(self.inner.set_range(key.encode()))`. -/
def Cursor.seek (c : Codec κ ν) (cur : MdbxCursor) (key : κ) :
    Except Error (Option (κ × ν)) × MdbxCursor :=
  let r := cur.engineSetRange (c.encodeKey key)
  (decodeResult c.decoder r.1, r.2)

/-- `DbCursorRO::next` from the source: `decode!(self.inner.next())`. -/
def Cursor.next (c : Codec κ ν) (cur : MdbxCursor) :
    Except Error (Option (κ × ν)) × MdbxCursor :=
  let r := cur.engineNext
  (decodeResult c.decoder r.1, r.2)

/-- `DbCursorRO::prev` from the source: `decode!(self.inner.prev())`. -/
def Cursor.prev (c : Codec κ ν) (cur : MdbxCursor) :
    Except Error (Option (κ × ν)) × MdbxCursor :=
  let r := cur.enginePrev
  (decodeResult c.decoder r.1, r.2)

/-- `DbCursorRO::last` from the source: `decode!(self.inner.last())`. -/
def Cursor.last (c : Codec κ ν) (cur : MdbxCursor) :
    Except Error (Option (κ × ν)) × MdbxCursor :=
  let r := cur.engineLast
  (decodeResult c.decoder r.1, r.2)

/-- `DbCursorRO::current` from the source:
`decode!(self.inner.get_current())`. -/
def Cursor.current (c : Codec κ ν) (cur : MdbxCursor) :
    Except Error (Option (κ × ν)) × MdbxCursor :=
  let r := cur.engineGetCurrent
  (decodeResult c.decoder r.1, r.2)

/-- Rust's `Result::transpose`: move the option outside the result. -/
def exceptTranspose {α : Type} : Except Error (Option α) → Option (Except Error α)
  | Except.ok none => none
  | Except.ok (some a) => some (Except.ok a)
  | Except.error e => some (Except.error e)

/-- Wrap a decoded value back into the optional-result shape
(`.map(decode_one).transpose()` on a present raw value). -/
def liftSome {α : Type} : Except Error α → Except Error (Option α)
  | Except.ok a => Except.ok (some a)
  | Except.error e => Except.error e

/-- The three range-bound shapes of `std::collections::Bound`. -/
inductive Bound (α : Type) where
  | Included (k : α)
  | Excluded (k : α)
  | Unbounded
deriving DecidableEq

/-- Outcome of running code that may hit a Rust panic (`unreachable!`):
either the process panics or a value is produced. -/
inductive PanicOr (α : Type) where
  | panicked
  | value (a : α)
deriving DecidableEq

/-- The forward `Walker`: the borrowed cursor plus the cached first item. -/
structure Walker (κ ν : Type) where
  cursor : MdbxCursor
  start : Option (Except Error (κ × ν))

/-- The `RangeWalker`: cursor, cached first item, and the original bounds. -/
structure RangeWalker (κ ν : Type) where
  cursor : MdbxCursor
  start : Option (Except Error (κ × ν))
  startBound : Bound κ
  endBound : Bound κ

/-- `DbCursorRO::walk` from the source: with a start key the cached first item
comes from `set_range` (mapped through the decoder, native errors failing the
construction); without one it is `self.first().transpose()`. -/
def Cursor.walk (c : Codec κ ν) (cur : MdbxCursor) (start_key : Option κ) :
    Except Error (Walker κ ν) :=
  match start_key with
  | some key =>
    let r := cur.engineSetRange (c.encodeKey key)
    match r.1 with
    | Except.error e => Except.error (Error.Read e)
    | Except.ok raw => Except.ok ⟨r.2, raw.map c.decoder⟩
  | none =>
    let r := Cursor.first c cur
    Except.ok ⟨r.2, exceptTranspose r.1⟩

/-- `DbCursorRO::walk_range` from the source.  An `Included` start first
checks the end bound: if the end bound is `Included` or `Excluded` with a key
strictly below the start key, construction returns `Err(Error::Read(2))`.
Otherwise the start item comes from `set_range`.  An `Excluded` start runs
into `unreachable!` — a panic.  An `Unbounded` start begins at `first`. -/
def Cursor.walk_range [LinearOrder κ] (c : Codec κ ν) (cur : MdbxCursor)
    (startB endB : Bound κ) : PanicOr (Except Error (RangeWalker κ ν)) :=
  match startB with
  | Bound.Included key =>
    if (match endB with
        | Bound.Included e => decide (e < key)
        | Bound.Excluded e => decide (e < key)
        | Bound.Unbounded => false) then
      PanicOr.value (Except.error (Error.Read 2))
    else
      let r := cur.engineSetRange (c.encodeKey key)
      match r.1 with
      | Except.error e => PanicOr.value (Except.error (Error.Read e))
      | Except.ok raw =>
        PanicOr.value (Except.ok ⟨r.2, raw.map c.decoder, startB, endB⟩)
  | Bound.Excluded _ => PanicOr.panicked
  | Bound.Unbounded =>
    let r := cur.engineFirst
    match r.1 with
    | Except.error e => PanicOr.value (Except.error (Error.Read e))
    | Except.ok raw =>
      PanicOr.value (Except.ok ⟨r.2, raw.map c.decoder, startB, endB⟩)

/-- `DbCursorRW::upsert` from the source: `put` with the default flags,
native failures wrapped as `Error.Write`. -/
def Cursor.upsert (c : Codec κ ν) (cur : MdbxCursor) (key : κ) (value : ν) :
    Except Error Unit × MdbxCursor :=
  let r := cur.enginePut (c.encodeKey key) (c.compressValue value) WriteFlags.UPSERT
  ( match r.1 with
    | Except.error e => Except.error (Error.Write e)
    | Except.ok u => Except.ok u,
    r.2 )

/-- `DbCursorRW::insert` from the source: `put` with `NO_OVERWRITE`, native
failures wrapped as `Error.Write`. -/
def Cursor.insert (c : Codec κ ν) (cur : MdbxCursor) (key : κ) (value : ν) :
    Except Error Unit × MdbxCursor :=
  let r := cur.enginePut (c.encodeKey key) (c.compressValue value) WriteFlags.NO_OVERWRITE
  ( match r.1 with
    | Except.error e => Except.error (Error.Write e)
    | Except.ok u => Except.ok u,
    r.2 )

/-- `DbCursorRW::append` from the source: `put` with `APPEND`, native
failures wrapped as `Error.Write`. -/
def Cursor.append (c : Codec κ ν) (cur : MdbxCursor) (key : κ) (value : ν) :
    Except Error Unit × MdbxCursor :=
  let r := cur.enginePut (c.encodeKey key) (c.compressValue value) WriteFlags.APPEND
  ( match r.1 with
    | Except.error e => Except.error (Error.Write e)
    | Except.ok u => Except.ok u,
    r.2 )

/-- Modelled from the spec: native engine state for a dup-sort table —
encoded keys each holding a nonempty ascending list of encoded values (the
encoded subkey leads the value, so value order is subkey order). -/
structure MdbxDupTable where
  entries : List (Nat × List Nat)
deriving DecidableEq

/-- Modelled from the spec: a native dup-sort cursor — table plus optional
position (key index, value index). -/
structure MdbxDupCursor where
  table : MdbxDupTable
  pos : Option (Nat × Nat)
deriving DecidableEq

/-- Value lists of a dup-sort table, looked up by exact encoded key. -/
def dupLookup (t : MdbxDupTable) (ek : Nat) : Option (List Nat) :=
  (t.entries.find? (fun e => e.1 = ek)).map (fun e => e.2)

/-- Modelled from the spec: native `first` on a dup-sort table positions at
the first value of the first key. -/
def MdbxDupCursor.engineFirst (cur : MdbxDupCursor) :
    Except Int (Option (Nat × Nat)) × MdbxDupCursor :=
  match cur.table.entries.head? with
  | none => (Except.ok none, { cur with pos := none })
  | some (k, vs) =>
    match vs.head? with
    | none => (Except.ok none, { cur with pos := none })
    | some v => (Except.ok (some (k, v)), { cur with pos := some (0, 0) })

/-- Modelled from the spec: native `set` positions at an exact key and
returns that key's first value. -/
def MdbxDupCursor.engineSet (cur : MdbxDupCursor) (ek : Nat) :
    Except Int (Option Nat) × MdbxDupCursor :=
  match cur.table.entries.findIdx? (fun e => e.1 = ek) with
  | none => (Except.ok none, { cur with pos := none })
  | some ki =>
    match dupLookup cur.table ek with
    | none => (Except.ok none, cur)
    | some vs =>
      match vs.head? with
      | none => (Except.ok none, cur)
      | some v => (Except.ok (some v), { cur with pos := some (ki, 0) })

/-- Modelled from the spec: native `get_both_range` positions within the
given key at the first value whose encoded subkey is at least the given one,
returning that value; absence of the key or of such a value is an empty
result. -/
def MdbxDupCursor.engineGetBothRange (cur : MdbxDupCursor) (ek esk : Nat) :
    Except Int (Option Nat) × MdbxDupCursor :=
  match dupLookup cur.table ek with
  | none => (Except.ok none, cur)
  | some vs =>
    match vs.find? (fun v => esk ≤ v) with
    | none => (Except.ok none, cur)
    | some v =>
      (Except.ok (some v),
       { cur with pos := do
           let ki ← cur.table.entries.findIdx? (fun e => e.1 = ek)
           let vi ← vs.findIdx? (fun w => esk ≤ w)
           pure (ki, vi) })

/-- Modelled from the spec: native `next_dup` steps to the next value of the
same key; empty result at the key's last value or on an unpositioned
cursor. -/
def MdbxDupCursor.engineNextDup (cur : MdbxDupCursor) :
    Except Int (Option (Nat × Nat)) × MdbxDupCursor :=
  match cur.pos with
  | none => (Except.ok none, cur)
  | some (ki, vi) =>
    match cur.table.entries[ki]? with
    | none => (Except.ok none, cur)
    | some (k, vs) =>
      match vs[vi + 1]? with
      | none => (Except.ok none, cur)
      | some v => (Except.ok (some (k, v)), { cur with pos := some (ki, vi + 1) })

/-- The codec contract of a dup-sort table adds the subkey encoder. -/
structure DupCodec (κ ν σ : Type) extends Codec κ ν where
  encodeSubKey : σ → Nat

/-- `DbCursorRO::first` instantiated at a dup-sort table. -/
def DupCursor.first (c : DupCodec κ ν σ) (cur : MdbxDupCursor) :
    Except Error (Option (κ × ν)) × MdbxDupCursor :=
  let r := cur.engineFirst
  (decodeResult c.toCodec.decoder r.1, r.2)

/-- `DbDupCursorRO::next_dup` from the source:
`decode!(self.inner.next_dup())`. -/
def DupCursor.next_dup (c : DupCodec κ ν σ) (cur : MdbxDupCursor) :
    Except Error (Option (κ × ν)) × MdbxDupCursor :=
  let r := cur.engineNextDup
  (decodeResult c.toCodec.decoder r.1, r.2)

/-- `DbDupCursorRO::seek_by_key_subkey` from the source: `get_both_range` on
the encoded key and subkey, native errors wrapped as `Error.Read`, the raw
value decoded alone and transposed. -/
def DupCursor.seek_by_key_subkey (c : DupCodec κ ν σ) (cur : MdbxDupCursor)
    (key : κ) (subkey : σ) : Except Error (Option ν) × MdbxDupCursor :=
  let r := cur.engineGetBothRange (c.toCodec.encodeKey key) (c.encodeSubKey subkey)
  ( match r.1 with
    | Except.error e => Except.error (Error.Read e)
    | Except.ok none => Except.ok none
    | Except.ok (some v) =>
      match c.toCodec.decodeOne v with
      | Except.error e => Except.error e
      | Except.ok w => Except.ok (some w),
    r.2 )

/-- The `DupWalker`: cursor plus the cached start item. -/
structure DupWalker (κ ν : Type) where
  cursor : MdbxDupCursor
  start : Option (Except Error (κ × ν))

/-- `DbDupCursorRO::walk_dup` from the source, by cases on the arguments:
with key and subkey, `get_both_range`; with key alone, `set`; with subkey
alone, `self.first()?` then `get_both_range` on the re-encoded first key —
and when the table is empty the walker's cached start item is an explicit
`Err(Error::Read(MDBX_NOTFOUND))`; with neither, `self.first().transpose()`. -/
def DupCursor.walk_dup (c : DupCodec κ ν σ) (cur : MdbxDupCursor)
    (key : Option κ) (subkey : Option σ) : Except Error (DupWalker κ ν) :=
  match key, subkey with
  | some k, some sk =>
    let ek := c.toCodec.encodeKey k
    let r := cur.engineGetBothRange ek (c.encodeSubKey sk)
    match r.1 with
    | Except.error e => Except.error (Error.Read e)
    | Except.ok raw =>
      Except.ok ⟨r.2, raw.map (fun val => c.toCodec.decoder (ek, val))⟩
  | some k, none =>
    let ek := c.toCodec.encodeKey k
    let r := cur.engineSet ek
    match r.1 with
    | Except.error e => Except.error (Error.Read e)
    | Except.ok raw =>
      Except.ok ⟨r.2, raw.map (fun val => c.toCodec.decoder (ek, val))⟩
  | none, some sk =>
    let r := DupCursor.first c cur
    match r.1 with
    | Except.error e => Except.error e
    | Except.ok (some (k0, _)) =>
      let ek := c.toCodec.encodeKey k0
      let r2 := r.2.engineGetBothRange ek (c.encodeSubKey sk)
      match r2.1 with
      | Except.error e => Except.error (Error.Read e)
      | Except.ok raw =>
        Except.ok ⟨r2.2, raw.map (fun val => c.toCodec.decoder (ek, val))⟩
    | Except.ok none =>
      Except.ok ⟨r.2, some (Except.error (Error.Read mdbxNotFoundCode))⟩
  | none, none =>
    let r := DupCursor.first c cur
    Except.ok ⟨r.2, exceptTranspose r.1⟩

/-- Modelled from the spec (section 4.4): pulling from a `DupWalker` (whose
iterator lives in the abstraction module, outside the sources under review)
yields the cached start item first and afterwards repeatedly takes
`next_dup`, never crossing into a different key. -/
def DupWalker.pull (c : DupCodec κ ν σ) (w : DupWalker κ ν) :
    Option (Except Error (κ × ν)) × DupWalker κ ν :=
  match w.start with
  | some item => (some item, ⟨w.cursor, none⟩)
  | none =>
    let r := DupCursor.next_dup c w.cursor
    (exceptTranspose r.1, ⟨r.2, none⟩)

/-- The transaction-kind marker of a cursor's type. -/
inductive TxMode where
  | RO
  | RW
deriving DecidableEq

/-- The operations of the cursor protocol, one constructor per method. -/
inductive CursorOp where
  | first
  | seek_exact
  | seek
  | next
  | prev
  | last
  | current
  | walk
  | walk_range
  | walk_back
  | next_dup
  | next_no_dup
  | next_dup_val
  | seek_by_key_subkey
  | walk_dup
  | upsert
  | insert
  | append
  | delete_current
  | delete_current_duplicates
  | append_dup
deriving DecidableEq

/-- Transcribed from the four impl-block headers of `cursor.rs`: the
`DbCursorRO` and `DbDupCursorRO` impls are for `Cursor<'tx, K, T>` with `K`
any transaction kind, while the `DbCursorRW` and `DbDupCursorRW` impls are
only for `Cursor<'tx, RW, T>`.  The operation set is thus a function of the
cursor's type alone; no method body tests the mode at run time. -/
def availableOps : TxMode → List CursorOp
  | TxMode.RO =>
    [CursorOp.first, CursorOp.seek_exact, CursorOp.seek, CursorOp.next,
     CursorOp.prev, CursorOp.last, CursorOp.current, CursorOp.walk,
     CursorOp.walk_range, CursorOp.walk_back, CursorOp.next_dup,
     CursorOp.next_no_dup, CursorOp.next_dup_val,
     CursorOp.seek_by_key_subkey, CursorOp.walk_dup]
  | TxMode.RW =>
    [CursorOp.first, CursorOp.seek_exact, CursorOp.seek, CursorOp.next,
     CursorOp.prev, CursorOp.last, CursorOp.current, CursorOp.walk,
     CursorOp.walk_range, CursorOp.walk_back, CursorOp.next_dup,
     CursorOp.next_no_dup, CursorOp.next_dup_val,
     CursorOp.seek_by_key_subkey, CursorOp.walk_dup,
     CursorOp.upsert, CursorOp.insert, CursorOp.append,
     CursorOp.delete_current, CursorOp.delete_current_duplicates,
     CursorOp.append_dup]

/-- The mutating operations, as implemented by the two read-write impl
blocks of `cursor.rs`. -/
def writeOps : List CursorOp :=
  [CursorOp.upsert, CursorOp.insert, CursorOp.append,
   CursorOp.delete_current, CursorOp.delete_current_duplicates,
   CursorOp.append_dup]

/-- Key lookup in an engine entry list (first entry with the given key). -/
def lookupKey (l : List (Nat × Nat)) (k : Nat) : Option Nat :=
  (l.find? (fun e => e.1 = k)).map (fun e => e.2)

/-- A concrete identity codec on naturals, used to evaluate the development
on explicit inputs. -/
def natCodec : Codec Nat Nat :=
  ⟨fun n => n, fun n => some n, fun n => n, fun n => some n⟩

/-- A concrete identity dup-sort codec on naturals. -/
def natDupCodec : DupCodec Nat Nat Nat :=
  ⟨natCodec, fun n => n⟩

/-- The table decoder either reports a `Decode` failure or yields a pair. -/
theorem decoder_shape (c : Codec κ ν) (kv : Nat × Nat) :
    c.decoder kv = Except.error Error.Decode ∨ ∃ p, c.decoder kv = Except.ok p := by
  unfold Codec.decoder
  cases c.decodeKey kv.1 with
  | none => exact Or.inl rfl
  | some k =>
    cases c.decompressValue kv.2 with
    | none => exact Or.inl rfl
    | some v => exact Or.inr ⟨(k, v), rfl⟩

/-- The `decode!` plumbing admits exactly four outcome shapes: empty result,
decoded pair, native read failure, decode failure. -/
theorem decodeResult_shape (d : Nat × Nat → Except Error (κ × ν))
    (hd : ∀ kv, d kv = Except.error Error.Decode ∨ ∃ p, d kv = Except.ok p)
    (r : Except Int (Option (Nat × Nat))) :
    decodeResult d r = Except.ok none ∨
    (∃ p, decodeResult d r = Except.ok (some p)) ∨
    (∃ e, decodeResult d r = Except.error (Error.Read e)) ∨
    decodeResult d r = Except.error Error.Decode := by
  match r with
  | Except.error e => exact Or.inr (Or.inr (Or.inl ⟨e, rfl⟩))
  | Except.ok none => exact Or.inl rfl
  | Except.ok (some kv) =>
    rcases hd kv with h | ⟨p, h⟩
    · refine Or.inr (Or.inr (Or.inr ?_))
      simp [decodeResult, h]
    · refine Or.inr (Or.inl ⟨p, ?_⟩)
      simp [decodeResult, h]

/-- Transposing the decoded optional pair recovers the mapped raw option. -/
theorem transpose_decodeResult (d : Nat × Nat → Except Error (κ × ν))
    (raw : Option (Nat × Nat)) :
    exceptTranspose (decodeResult d (Except.ok raw)) = raw.map d := by
  cases raw with
  | none => rfl
  | some kv =>
    cases h : d kv with
    | error e => simp [decodeResult, exceptTranspose, h]
    | ok p => simp [decodeResult, exceptTranspose, h]

/-- On a list strictly ascending under `f`, `find?` of `s ≤ f _` yields an
element at least `s` that is minimal among the qualifying elements. -/
theorem find?_min_ge {α : Type} (f : α → Nat) (s : Nat) :
    ∀ (l : List α), List.Pairwise (fun a b => f a < f b) l →
      ∀ a, l.find? (fun x => s ≤ f x) = some a →
        s ≤ f a ∧ ∀ b ∈ l, s ≤ f b → f a ≤ f b := by
  intro l
  induction l with
  | nil => intro _ a h; simp at h
  | cons hd tl ih =>
    intro hp a h
    rcases List.pairwise_cons.mp hp with ⟨hrel, htl⟩
    by_cases hhd : s ≤ f hd
    · rw [List.find?_cons_of_pos _ (by simpa using hhd)] at h
      cases h
      refine ⟨hhd, ?_⟩
      intro b hb _
      rcases List.mem_cons.mp hb with rfl | hbtl
      · exact le_refl _
      · exact le_of_lt (hrel b hbtl)
    · rw [List.find?_cons_of_neg _ (by simpa using hhd)] at h
      rcases ih htl a h with ⟨ha, hmin⟩
      refine ⟨ha, ?_⟩
      intro b hb hsb
      rcases List.mem_cons.mp hb with rfl | hbtl
      · exact absurd hsb hhd
      · exact hmin b hbtl hsb

/-- The last entry of a list is a member. -/
theorem getLast?_mem_self {α : Type} (l : List α) (x : α)
    (h : l.getLast? = some x) : x ∈ l := by
  rcases List.mem_getLast?_eq_getLast (by simpa using h) with ⟨hne, rfl⟩
  exact List.getLast_mem hne

/-- In a sorted entry list, every key is at most the last entry's key. -/
theorem mem_le_getLast :
    ∀ (l : List (Nat × Nat)), sortedByKey l →
      ∀ e ∈ l, ∀ x, l.getLast? = some x → e.1 ≤ x.1 := by
  intro l
  induction l with
  | nil => intro _ e he; simp at he
  | cons a t ih =>
    intro hp e he x hx
    rcases List.pairwise_cons.mp hp with ⟨hrel, ht⟩
    cases t with
    | nil =>
      simp at hx he
      rw [he, hx]
    | cons b t' =>
      rw [List.getLast?_cons_cons] at hx
      rcases List.mem_cons.mp he with rfl | het
      · exact le_of_lt (hrel x (getLast?_mem_self _ x hx))
      · exact ih ht e het x hx

/-- `putSorted` makes the written value the one found under its key. -/
theorem lookupKey_putSorted (l : List (Nat × Nat)) (k v : Nat) :
    lookupKey (putSorted l k v) k = some v := by
  induction l with
  | nil => simp [putSorted, lookupKey]
  | cons e rest ih =>
    by_cases h1 : k < e.1
    · simp [putSorted, h1, lookupKey]
    · by_cases h2 : k = e.1
      · simp [putSorted, h1, h2, lookupKey]
      · have hne : ¬(e.1 = k) := fun h => h2 h.symm
        simp only [putSorted, if_neg h1, if_neg h2]
        unfold lookupKey
        rw [List.find?_cons_of_neg _ (by simpa using hne)]
        exact ih

/-- A key occurs in the entry list iff the engine's presence test fires. -/
theorem any_key_iff (l : List (Nat × Nat)) (k : Nat) :
    (l.any (fun e => e.1 = k) = true) ↔ ∃ w, (k, w) ∈ l := by
  rw [List.any_eq_true]
  constructor
  · rintro ⟨x, hx, hk⟩
    have hk' : x.1 = k := by simpa using hk
    exact ⟨x.2, by rwa [← hk', Prod.mk.eta]⟩
  · rintro ⟨w, hw⟩
    exact ⟨(k, w), hw, by simp⟩

/-- C1 (corrected): a `walk_range` whose `Included` start key strictly
exceeds the key of an `Included` or `Excluded` end bound fails immediately at
construction — the walker is never built, no failure is deferred to a pull —
but the error surfaced is `Error::Read(2)`, not a dedicated `InvalidRange`
variant. -/
theorem C1_contradictory_range_error_at_construction [LinearOrder κ]
    (c : Codec κ ν) (cur : MdbxCursor) (k e : κ) (h : e < k) :
    Cursor.walk_range c cur (Bound.Included k) (Bound.Included e) =
      PanicOr.value (Except.error (Error.Read 2)) ∧
    Cursor.walk_range c cur (Bound.Included k) (Bound.Excluded e) =
      PanicOr.value (Except.error (Error.Read 2)) := by
  constructor <;> simp [Cursor.walk_range, h]

/-- C1 witness: `walk_range(Included(9)..Included(3))` on a populated table
fails at construction with the `Read 2` error. -/
theorem C1_contradictory_range_witness :
    Cursor.walk_range natCodec ⟨⟨[(1, 10), (3, 30), (9, 90)]⟩, none⟩
        (Bound.Included 9) (Bound.Included 3) =
      PanicOr.value (Except.error (Error.Read 2)) :=
  (C1_contradictory_range_error_at_construction natCodec
    ⟨⟨[(1, 10), (3, 30), (9, 90)]⟩, none⟩ 9 3 (by decide)).1

/-- C1 counterexample: on the contradictory range `Included(9)..Included(3)`
the construction error is `Error.Read 2`, which is not the `InvalidRange`
error the claim names. -/
theorem C1_read2_not_invalid_range :
    Cursor.walk_range natCodec ⟨⟨[(1, 10), (3, 30), (9, 90)]⟩, none⟩
        (Bound.Included 9) (Bound.Included 3) =
      PanicOr.value (Except.error (Error.Read 2)) ∧
    Error.Read 2 ≠ Error.InvalidRange :=
  ⟨rfl, by decide⟩

/-- C2 (code bug): a `walk_range` whose start bound is `Excluded` does not
return a construction error — it runs straight into the `unreachable!` macro
and panics, whatever the end bound is. -/
theorem C2_excluded_start_bound_panics [LinearOrder κ] (c : Codec κ ν)
    (cur : MdbxCursor) (k : κ) (endB : Bound κ) :
    Cursor.walk_range c cur (Bound.Excluded k) endB = PanicOr.panicked := rfl

/-- C9: the six mutating operations are available exactly on the read-write
instantiation of the cursor — they are absent from the read-only operation
set, so misuse is a type (impl-resolution) failure, not a runtime check. -/
theorem C9_write_ops_require_rw :
    ∀ op ∈ writeOps, op ∈ availableOps TxMode.RW ∧ op ∉ availableOps TxMode.RO := by
  decide

/-- C9 witness: `upsert` is available read-write and unavailable read-only. -/
theorem C9_write_ops_require_rw_witness :
    CursorOp.upsert ∈ availableOps TxMode.RW ∧
    CursorOp.upsert ∉ availableOps TxMode.RO :=
  C9_write_ops_require_rw CursorOp.upsert (by decide)

/-- C10: with an `Included(k)` start bound, `walk_range` rejects the range at
construction exactly when the end bound's key is strictly below `k`; an end
bound `Included(k)` or `Excluded(k)` with the same key constructs a walker,
even though `Included(k)..Excluded(k)` denotes an empty range. -/
theorem C10_equal_end_key_constructs [LinearOrder κ] (c : Codec κ ν)
    (cur : MdbxCursor) (k : κ) :
    (∃ w, Cursor.walk_range c cur (Bound.Included k) (Bound.Excluded k) =
       PanicOr.value (Except.ok w)) ∧
    (∃ w, Cursor.walk_range c cur (Bound.Included k) (Bound.Included k) =
       PanicOr.value (Except.ok w)) ∧
    ∀ e : κ,
      (Cursor.walk_range c cur (Bound.Included k) (Bound.Included e) =
         PanicOr.value (Except.error (Error.Read 2)) ↔ e < k) ∧
      (Cursor.walk_range c cur (Bound.Included k) (Bound.Excluded e) =
         PanicOr.value (Except.error (Error.Read 2)) ↔ e < k) := by
  refine
    ⟨⟨⟨{ cur with pos := cur.table.entries.findIdx? (fun e2 => c.encodeKey k ≤ e2.1) },
       (cur.table.entries.find? (fun e2 => c.encodeKey k ≤ e2.1)).map c.decoder,
       Bound.Included k, Bound.Excluded k⟩, ?_⟩,
     ⟨⟨{ cur with pos := cur.table.entries.findIdx? (fun e2 => c.encodeKey k ≤ e2.1) },
       (cur.table.entries.find? (fun e2 => c.encodeKey k ≤ e2.1)).map c.decoder,
       Bound.Included k, Bound.Included k⟩, ?_⟩, ?_⟩
  · simp [Cursor.walk_range, MdbxCursor.engineSetRange]
  · simp [Cursor.walk_range, MdbxCursor.engineSetRange]
  · intro e
    constructor <;> by_cases hlt : e < k <;>
      simp [Cursor.walk_range, MdbxCursor.engineSetRange, hlt]

/-- C3: `walk_dup(None, Some(subkey))` on an empty table still constructs —
the walker's cached start item is the explicit not-found read error, the
first pull yields exactly that error, and the next pull ends the
sequence. -/
theorem C3_walk_dup_empty_table (c : DupCodec κ ν σ) (cur : MdbxDupCursor)
    (sk : σ) (h : cur.table.entries = []) :
    DupCursor.walk_dup c cur none (some sk) =
      Except.ok ⟨⟨cur.table, none⟩,
        some (Except.error (Error.Read mdbxNotFoundCode))⟩ ∧
    (DupWalker.pull c ⟨⟨cur.table, none⟩,
        some (Except.error (Error.Read mdbxNotFoundCode))⟩).1 =
      some (Except.error (Error.Read mdbxNotFoundCode)) ∧
    (DupWalker.pull c (DupWalker.pull c ⟨⟨cur.table, none⟩,
        some (Except.error (Error.Read mdbxNotFoundCode))⟩).2).1 = none := by
  obtain ⟨⟨ents⟩, p⟩ := cur
  cases ents with
  | cons a t => simp at h
  | nil => exact ⟨rfl, rfl, rfl⟩

/-- C3 witness: the concrete empty dup-sort table. -/
theorem C3_walk_dup_empty_table_witness :
    DupCursor.walk_dup natDupCodec ⟨⟨[]⟩, none⟩ none (some 7) =
      Except.ok ⟨⟨⟨[]⟩, none⟩,
        some (Except.error (Error.Read mdbxNotFoundCode))⟩ :=
  (C3_walk_dup_empty_table natDupCodec ⟨⟨[]⟩, none⟩ 7 rfl).1

/-- The basic read operations of the cursor protocol, with their key
arguments, so one statement can range over all of them. -/
inductive ReadOp (κ : Type) where
  | first
  | last
  | next
  | prev
  | current
  | seek (k : κ)
  | seek_exact (k : κ)

/-- Dispatch a basic read operation to its source translation, keeping the
returned result. -/
def runReadOp (c : Codec κ ν) (op : ReadOp κ) (cur : MdbxCursor) :
    Except Error (Option (κ × ν)) :=
  match op with
  | ReadOp.first => (Cursor.first c cur).1
  | ReadOp.last => (Cursor.last c cur).1
  | ReadOp.next => (Cursor.next c cur).1
  | ReadOp.prev => (Cursor.prev c cur).1
  | ReadOp.current => (Cursor.current c cur).1
  | ReadOp.seek k => (Cursor.seek c cur k).1
  | ReadOp.seek_exact k => (Cursor.seek_exact c cur k).1

/-- C4: every basic read returns one of four mutually distinguishable
outcomes — empty result (absence), decoded pair (success), `Read`-wrapped
native failure, or `Decode` failure; the `decode!` plumbing maps a native
error code to `Read` and absence to the empty result, never to a raised
failure, and the shapes are pairwise distinct by constructor. -/
theorem C4_read_result_taxonomy (c : Codec κ ν) (op : ReadOp κ)
    (cur : MdbxCursor) :
    (runReadOp c op cur = Except.ok none ∨
     (∃ p, runReadOp c op cur = Except.ok (some p)) ∨
     (∃ e, runReadOp c op cur = Except.error (Error.Read e)) ∨
     runReadOp c op cur = Except.error Error.Decode) ∧
    (∀ r : Except Int (Option (Nat × Nat)),
      (∀ e, r = Except.error e →
         decodeResult c.decoder r = Except.error (Error.Read e)) ∧
      (r = Except.ok none → decodeResult c.decoder r = Except.ok none)) ∧
    (∀ e : Int, Error.Read e ≠ Error.Decode) ∧
    (∀ (o : Option (κ × ν)) (x : Error),
      (Except.ok o : Except Error (Option (κ × ν))) ≠ Except.error x) := by
  refine ⟨?_, ?_, ?_, ?_⟩
  · cases op <;> exact decodeResult_shape c.decoder (decoder_shape c) _
  · intro r
    exact ⟨fun e he => by subst he; rfl, fun he => by subst he; rfl⟩
  · intro e; simp
  · intro o x; simp

/-- C4 witness: on the identity codec, a native error code becomes a `Read`
failure and a native empty result stays an empty result. -/
theorem C4_read_result_taxonomy_witness :
    decodeResult natCodec.decoder (Except.error 7) =
      Except.error (Error.Read 7) ∧
    decodeResult natCodec.decoder (Except.ok none) = Except.ok none := by
  have h := C4_read_result_taxonomy natCodec ReadOp.first ⟨⟨[]⟩, none⟩
  exact ⟨(h.2.1 (Except.error 7)).1 7 rfl, (h.2.1 (Except.ok none)).2 rfl⟩

/-- C5: on a table whose entries respect the engine's sortedness invariant,
`append` succeeds — placing the new entry at the end, preserving the order —
exactly when the encoded key is strictly greater than every present key
(i.e. than the current maximum); otherwise it fails with a reported `Write`
error and leaves the cursor and table untouched. -/
theorem C5_append_ordering (c : Codec κ ν) (cur : MdbxCursor) (k : κ) (v : ν)
    (hs : sortedByKey cur.table.entries) :
    ((∀ e ∈ cur.table.entries, e.1 < c.encodeKey k) →
       Cursor.append c cur k v =
         (Except.ok (),
          { cur with
            table := ⟨cur.table.entries ++ [(c.encodeKey k, c.compressValue v)]⟩ })) ∧
    ((∃ e ∈ cur.table.entries, c.encodeKey k ≤ e.1) →
       Cursor.append c cur k v =
         (Except.error (Error.Write mdbxKeyMismatchCode), cur)) := by
  constructor
  · intro hlt
    cases hlast : cur.table.entries.getLast? with
    | none =>
      have hnil : cur.table.entries = [] := by
        cases hent : cur.table.entries with
        | nil => rfl
        | cons a t => rw [hent] at hlast; simp at hlast
      simp [Cursor.append, MdbxCursor.enginePut, hlast, hnil]
    | some x =>
      have hx : x ∈ cur.table.entries := getLast?_mem_self _ x hlast
      have hnot : ¬ c.encodeKey k ≤ x.1 := not_le.mpr (hlt x hx)
      simp [Cursor.append, MdbxCursor.enginePut, hlast, hnot]
  · rintro ⟨e, he, hke⟩
    cases hlast : cur.table.entries.getLast? with
    | none =>
      have hnil : cur.table.entries = [] := by
        cases hent : cur.table.entries with
        | nil => rfl
        | cons a t => rw [hent] at hlast; simp at hlast
      rw [hnil] at he
      simp at he
    | some x =>
      have hle : c.encodeKey k ≤ x.1 :=
        le_trans hke (mem_le_getLast _ hs e he x hlast)
      simp [Cursor.append, MdbxCursor.enginePut, hlast, hle]

/-- C5 witness: on an empty table `append 5` succeeds; on the resulting
table `append 3` fails with the `Write` key-mismatch error. -/
theorem C5_append_ordering_witness :
    Cursor.append natCodec ⟨⟨[]⟩, none⟩ 5 50 =
      (Except.ok (), ⟨⟨[(5, 50)]⟩, none⟩) ∧
    Cursor.append natCodec ⟨⟨[(5, 50)]⟩, none⟩ 3 30 =
      (Except.error (Error.Write mdbxKeyMismatchCode), ⟨⟨[(5, 50)]⟩, none⟩) := by
  constructor
  · exact (C5_append_ordering natCodec ⟨⟨[]⟩, none⟩ 5 50 (by decide)).1
      (by intro e he; simp at he)
  · exact (C5_append_ordering natCodec ⟨⟨[(5, 50)]⟩, none⟩ 3 30 (by decide)).2
      ⟨(5, 50), by decide, by decide⟩

/-- C6: for a key already present, `insert` fails with the distinct
key-exists `Write` error and leaves everything unchanged, while `upsert`
succeeds and the stored value under that key becomes the new one; for an
absent key both succeed and store the value. -/
theorem C6_insert_vs_upsert (c : Codec κ ν) (cur : MdbxCursor) (k : κ) (v : ν) :
    ((∃ w, (c.encodeKey k, w) ∈ cur.table.entries) →
       Cursor.insert c cur k v =
         (Except.error (Error.Write mdbxKeyExistCode), cur) ∧
       (Cursor.upsert c cur k v).1 = Except.ok () ∧
       lookupKey (Cursor.upsert c cur k v).2.table.entries (c.encodeKey k) =
         some (c.compressValue v)) ∧
    ((∀ w, (c.encodeKey k, w) ∉ cur.table.entries) →
       (Cursor.insert c cur k v).1 = Except.ok () ∧
       lookupKey (Cursor.insert c cur k v).2.table.entries (c.encodeKey k) =
         some (c.compressValue v) ∧
       (Cursor.upsert c cur k v).1 = Except.ok () ∧
       lookupKey (Cursor.upsert c cur k v).2.table.entries (c.encodeKey k) =
         some (c.compressValue v)) := by
  constructor
  · intro hp
    have hany : cur.table.entries.any (fun e => e.1 = c.encodeKey k) = true :=
      (any_key_iff _ _).mpr hp
    refine ⟨?_, rfl, ?_⟩
    · simp [Cursor.insert, MdbxCursor.enginePut, hany]
    · exact lookupKey_putSorted _ _ _
  · intro ha
    have hany : cur.table.entries.any (fun e => e.1 = c.encodeKey k) = false := by
      rw [Bool.eq_false_iff]
      intro htrue
      rcases (any_key_iff _ _).mp htrue with ⟨w, hw⟩
      exact ha w hw
    refine ⟨?_, ?_, rfl, ?_⟩
    · simp [Cursor.insert, MdbxCursor.enginePut, hany]
    · simp only [Cursor.insert, MdbxCursor.enginePut, hany]
      exact lookupKey_putSorted _ _ _
    · exact lookupKey_putSorted _ _ _

/-- C6 witness: on a table holding key 5, `insert 5` fails with key-exists
while `upsert 5` overwrites; on the absent key 6, `insert` succeeds and
stores the value. -/
theorem C6_insert_vs_upsert_witness :
    Cursor.insert natCodec ⟨⟨[(5, 50)]⟩, none⟩ 5 70 =
      (Except.error (Error.Write mdbxKeyExistCode), ⟨⟨[(5, 50)]⟩, none⟩) ∧
    lookupKey (Cursor.upsert natCodec ⟨⟨[(5, 50)]⟩, none⟩ 5 70).2.table.entries 5 =
      some 70 ∧
    (Cursor.insert natCodec ⟨⟨[(5, 50)]⟩, none⟩ 6 60).1 = Except.ok () ∧
    lookupKey (Cursor.insert natCodec ⟨⟨[(5, 50)]⟩, none⟩ 6 60).2.table.entries 6 =
      some 60 := by
  have hp := (C6_insert_vs_upsert natCodec ⟨⟨[(5, 50)]⟩, none⟩ 5 70).1
    ⟨50, by decide⟩
  have ha := (C6_insert_vs_upsert natCodec ⟨⟨[(5, 50)]⟩, none⟩ 6 60).2
    (by intro w hw; simp [natCodec] at hw)
  exact ⟨hp.1, hp.2.2, ha.1, ha.2.1⟩

/-- C7: `walk` always constructs a forward walker whose cached first item is
exactly the (transposed) result of `seek(start_key)` when a start key is
given, and of `first()` otherwise; and on a sorted table `seek` is empty
precisely when no entry's encoded key reaches the encoded start key,
otherwise it decodes the first (minimal) entry whose encoded key is at least
the encoded start key. -/
theorem C7_walk_start_item (c : Codec κ ν) (cur : MdbxCursor) (k : κ)
    (hs : sortedByKey cur.table.entries) :
    Cursor.walk c cur (some k) =
      Except.ok ⟨(Cursor.seek c cur k).2, exceptTranspose (Cursor.seek c cur k).1⟩ ∧
    Cursor.walk c cur none =
      Except.ok ⟨(Cursor.first c cur).2, exceptTranspose (Cursor.first c cur).1⟩ ∧
    ((Cursor.seek c cur k).1 = Except.ok none ↔
       ∀ e ∈ cur.table.entries, e.1 < c.encodeKey k) ∧
    ∀ kv, cur.table.entries.find? (fun e => c.encodeKey k ≤ e.1) = some kv →
      (Cursor.seek c cur k).1 = liftSome (c.decoder kv) ∧
      c.encodeKey k ≤ kv.1 ∧
      ∀ e ∈ cur.table.entries, c.encodeKey k ≤ e.1 → kv.1 ≤ e.1 := by
  refine ⟨?_, rfl, ?_, ?_⟩
  · simp [Cursor.walk, Cursor.seek, MdbxCursor.engineSetRange,
      transpose_decodeResult]
  · unfold Cursor.seek
    simp only [MdbxCursor.engineSetRange]
    constructor
    · intro h
      intro e he
      cases hf : cur.table.entries.find? (fun e2 => c.encodeKey k ≤ e2.1) with
      | none =>
        have := List.find?_eq_none.mp hf e he
        simpa using this
      | some kv =>
        rw [hf] at h
        rcases decoder_shape c kv with hd | ⟨p, hd⟩ <;>
          simp [decodeResult, hd] at h
    · intro h
      have hf : cur.table.entries.find? (fun e2 => c.encodeKey k ≤ e2.1) = none := by
        apply List.find?_eq_none.mpr
        intro e he
        simpa using not_le.mpr (h e he)
      rw [hf]
      rfl
  · intro kv hf
    have hmin := find?_min_ge (fun e : Nat × Nat => e.1) (c.encodeKey k)
      cur.table.entries hs kv hf
    refine ⟨?_, hmin.1, hmin.2⟩
    unfold Cursor.seek
    simp only [MdbxCursor.engineSetRange]
    rw [hf]
    rcases decoder_shape c kv with hd | ⟨p, hd⟩ <;>
      simp [decodeResult, liftSome, hd]

/-- C7 witness: on the sorted table with keys 1, 4, 9, walking from key 3
caches exactly the seek result, the entry with key 4. -/
theorem C7_walk_start_item_witness :
    Cursor.walk natCodec ⟨⟨[(1, 10), (4, 40), (9, 90)]⟩, none⟩ (some 3) =
      Except.ok ⟨⟨⟨[(1, 10), (4, 40), (9, 90)]⟩, some 1⟩,
        some (Except.ok (4, 40))⟩ ∧
    (Cursor.seek natCodec ⟨⟨[(1, 10), (4, 40), (9, 90)]⟩, none⟩ 3).1 =
      Except.ok (some (4, 40)) := by
  have h := C7_walk_start_item natCodec ⟨⟨[(1, 10), (4, 40), (9, 90)]⟩, none⟩ 3
    (by decide)
  constructor
  · rw [h.1]
    rfl
  · exact (h.2.2.2 (4, 40) rfl).1

/-- C8: `seek_by_key_subkey` returns an empty result when the encoded key is
absent or no stored value under it reaches the encoded subkey; otherwise it
returns (only) the decoded first stored value whose encoded subkey is at
least the bound — the minimal qualifying value when the duplicates are
sorted. -/
theorem C8_seek_by_key_subkey_spec (c : DupCodec κ ν σ) (cur : MdbxDupCursor)
    (k : κ) (sk : σ) :
    (dupLookup cur.table (c.toCodec.encodeKey k) = none →
       (DupCursor.seek_by_key_subkey c cur k sk).1 = Except.ok none) ∧
    ∀ vs, dupLookup cur.table (c.toCodec.encodeKey k) = some vs →
      (vs.find? (fun v => c.encodeSubKey sk ≤ v) = none →
         (DupCursor.seek_by_key_subkey c cur k sk).1 = Except.ok none) ∧
      ∀ v, vs.find? (fun v2 => c.encodeSubKey sk ≤ v2) = some v →
        (DupCursor.seek_by_key_subkey c cur k sk).1 =
          liftSome (c.toCodec.decodeOne v) ∧
        c.encodeSubKey sk ≤ v ∧
        (List.Pairwise (fun a b : Nat => a < b) vs →
          ∀ w ∈ vs, c.encodeSubKey sk ≤ w → v ≤ w) := by
  constructor
  · intro h
    simp [DupCursor.seek_by_key_subkey, MdbxDupCursor.engineGetBothRange, h]
  · intro vs hvs
    constructor
    · intro hnone
      simp [DupCursor.seek_by_key_subkey, MdbxDupCursor.engineGetBothRange,
        hvs, hnone]
    · intro v hv
      refine ⟨?_, ?_, ?_⟩
      · simp only [DupCursor.seek_by_key_subkey,
          MdbxDupCursor.engineGetBothRange, hvs, hv]
        cases hd : c.toCodec.decodeOne v with
        | error e => simp [liftSome, hd]
        | ok w => simp [liftSome, hd]
      · simpa using List.find?_some hv
      · intro hp
        exact (find?_min_ge (fun v2 : Nat => v2) (c.encodeSubKey sk) vs hp v hv).2

/-- C8 witness: under key 5 with sorted duplicates 10, 20, 30, seeking
subkey 15 returns only the decoded value 20. -/
theorem C8_seek_by_key_subkey_witness :
    (DupCursor.seek_by_key_subkey natDupCodec
        ⟨⟨[(5, [10, 20, 30])]⟩, none⟩ 5 15).1 = Except.ok (some 20) ∧
    (15 : Nat) ≤ 20 := by
  have h := ((C8_seek_by_key_subkey_spec natDupCodec
      ⟨⟨[(5, [10, 20, 30])]⟩, none⟩ 5 15).2 [10, 20, 30] rfl).2 20 rfl
  exact ⟨h.1, h.2.1⟩

end RethDb
